import Mathlib

/-!
# Verification of the lending-agent mini app's transaction core

A shallow embedding, over `List Char` strings and `Nat` integers, of the
repository's token-amount codec (`tokenUtils`: `parseTokenAmount`,
`formatTokenAmount`, `isValidTokenAmount`, `getTokenInfo`,
`formatTransactionData`, `createTransactionSummary`) and of the `ChatTab`
transaction-execution handlers (`handleSubmit`, `handleTransactionApprove`,
`handleTransactionReject`, and the confirmation `useEffect`), modelled as an
event-driven transition function.

JavaScript specifics that the embedding mirrors:
* `String.prototype.split('.')`: part 0 is everything before the first dot,
  part 1 is the segment between the first and second dot (empty when absent).
* `BigInt(string)` follows the `StringToBigInt` operation: whitespace is
  trimmed, the empty string is 0, an optional sign may precede nonempty
  decimal digits (leading zeros allowed), an unsigned `0x`/`0o`/`0b` prefix
  introduces a radix literal, and anything else throws (`jsStringToBigInt`).
* `10 ** decimals` is JS *number* (binary64) arithmetic: exact for
  `decimals ≤ 22`, rounded to 53 significant bits for `23 ≤ decimals ≤ 308`,
  and `Infinity` (so `BigInt` of it throws a `RangeError`) beyond
  (`jsPow10Double`, built on `roundToDouble`).  The model takes the power to
  be correctly rounded, which is what major engines produce here even though
  ECMA-262 only requires an implementation-approximation for `**`.
* `BigInt(10) ** BigInt(decimals)` (used by `parseTokenAmount`) is exact
  `BigInt` arithmetic for every `decimals`.
* `BigInt` division truncates and `%` returns the remainder, matching `Nat`
  division on the non-negative amounts of the data model.
-/

namespace LendingAgent

/-! ## Decimal digit strings -/

/-- A decimal digit character, the JS regex `\d` (exactly `'0'`–`'9'`). -/
def isDigitChar (c : Char) : Bool := 48 ≤ c.toNat && c.toNat ≤ 57

/-- Numeric value of a digit character (`'0'` ↦ 0, …, `'9'` ↦ 9). -/
def charToDigit (c : Char) : Nat := c.toNat - 48

/-- The digit character of a value `0 ≤ k ≤ 9`. -/
def decChar : Nat → Char
  | 0 => '0' | 1 => '1' | 2 => '2' | 3 => '3' | 4 => '4'
  | 5 => '5' | 6 => '6' | 7 => '7' | 8 => '8' | _ => '9'

/-- Value of a digit string read most-significant first, exactly the value
`BigInt` assigns to a (possibly empty, possibly zero-padded) digit string. -/
def digitsToNat (s : List Char) : Nat :=
  s.foldl (fun n c => 10 * n + charToDigit c) 0

/-- Digits of a positive number, most significant first; the first argument
is fuel bounding the recursion depth. -/
def natToDecAux : Nat → Nat → List Char
  | 0, _ => []
  | _ + 1, 0 => []
  | fuel + 1, n + 1 => natToDecAux fuel ((n + 1) / 10) ++ [decChar ((n + 1) % 10)]

/-- Canonical decimal rendering of a natural number, the behaviour of
`BigInt.prototype.toString` on non-negative values. -/
def natToDec (n : Nat) : List Char :=
  if n = 0 then ['0'] else natToDecAux n n

/-! ## JS string operations used by the codec -/

/-- `amount.split('.')[0]` (with the code's `'0'` default, which never fires
because `split` always returns at least one part): everything before the
first dot. -/
def wholePartOf (s : List Char) : List Char := s.takeWhile (fun c => c ≠ '.')

/-- `amount.split('.')[1]` (with the code's `''` default when there is no
dot): the segment between the first and the second dot. -/
def fracPartOf (s : List Char) : List Char :=
  ((s.dropWhile (fun c => c ≠ '.')).drop 1).takeWhile (fun c => c ≠ '.')

/-- The JS regex test `/^\d+$/.test(s)`: nonempty and all digits. -/
def matchesDigitsRe (s : List Char) : Bool :=
  !s.isEmpty && s.all isDigitChar

/-- A JS `StrWhiteSpaceChar` (WhiteSpace or LineTerminator): the characters
`StringToBigInt` trims — TAB, LF, VT, FF, CR, SP, NBSP, the Unicode `Zs`
space separators, the line/paragraph separators, and ZWNBSP. -/
def isJsWhitespace (c : Char) : Bool :=
  c.toNat = 9 || c.toNat = 10 || c.toNat = 11 || c.toNat = 12 || c.toNat = 13 ||
    c.toNat = 32 || c.toNat = 160 || c.toNat = 5760 ||
    (8192 ≤ c.toNat && c.toNat ≤ 8202) ||
    c.toNat = 8232 || c.toNat = 8233 || c.toNat = 8239 || c.toNat = 8287 ||
    c.toNat = 12288 || c.toNat = 65279

/-- Trim JS whitespace from both ends of a string. -/
def trimJs (s : List Char) : List Char :=
  (((s.dropWhile isJsWhitespace).reverse).dropWhile isJsWhitespace).reverse

/-- The numeric value of `c` as a digit in base `b` (decimal digits plus the
hex letters in either case), `none` when `c` is no digit of that base. -/
def radixDigitVal (b : Nat) (c : Char) : Option Nat :=
  let v :=
    if 48 ≤ c.toNat ∧ c.toNat ≤ 57 then some (c.toNat - 48)
    else if 97 ≤ c.toNat ∧ c.toNat ≤ 102 then some (c.toNat - 87)
    else if 65 ≤ c.toNat ∧ c.toNat ≤ 70 then some (c.toNat - 55)
    else none
  match v with
  | some k => if k < b then some k else none
  | none => none

/-- Value of a base-`b` digit string, most significant digit first (invalid
digits contribute 0 — only used under a guard that excludes them). -/
def radixToNat (b : Nat) (s : List Char) : Nat :=
  s.foldl (fun acc c => b * acc + (radixDigitVal b c).getD 0) 0

/-- The acceptance set of the JS `StringToBigInt` operation, after
whitespace trimming: the empty string, nonempty decimal digits (leading
zeros allowed), a `+`/`-` sign followed by nonempty decimal digits, or an
unsigned `0x`/`0X`, `0o`/`0O`, `0b`/`0B` prefix followed by nonempty digits
of that base. -/
def isBigIntString (s : List Char) : Bool :=
  let t := trimJs s
  t.isEmpty || matchesDigitsRe t ||
    ((t.head? = some '+' || t.head? = some '-') && matchesDigitsRe (t.drop 1)) ||
    ((t.take 2 = ['0', 'x'] || t.take 2 = ['0', 'X']) && !(t.drop 2).isEmpty &&
      (t.drop 2).all (fun c => (radixDigitVal 16 c).isSome)) ||
    ((t.take 2 = ['0', 'o'] || t.take 2 = ['0', 'O']) && !(t.drop 2).isEmpty &&
      (t.drop 2).all (fun c => (radixDigitVal 8 c).isSome)) ||
    ((t.take 2 = ['0', 'b'] || t.take 2 = ['0', 'B']) && !(t.drop 2).isEmpty &&
      (t.drop 2).all (fun c => (radixDigitVal 2 c).isSome))

/-- The JS `StringToBigInt` operation, i.e. the behaviour of the `BigInt`
constructor on a string: trims whitespace, maps the empty string to 0,
accepts optionally-signed decimal digits and unsigned radix literals, and
throws (`none`) on everything else. -/
def jsStringToBigInt (s : List Char) : Option Int :=
  let t := trimJs s
  if t.isEmpty then some 0
  else if matchesDigitsRe t then some ((digitsToNat t : Int))
  else if t.head? = some '+' ∧ matchesDigitsRe (t.drop 1) then
    some ((digitsToNat (t.drop 1) : Int))
  else if t.head? = some '-' ∧ matchesDigitsRe (t.drop 1) then
    some (-(digitsToNat (t.drop 1) : Int))
  else if (t.take 2 = ['0', 'x'] ∨ t.take 2 = ['0', 'X']) ∧ ¬(t.drop 2).isEmpty ∧
      (t.drop 2).all (fun c => (radixDigitVal 16 c).isSome) then
    some ((radixToNat 16 (t.drop 2) : Int))
  else if (t.take 2 = ['0', 'o'] ∨ t.take 2 = ['0', 'O']) ∧ ¬(t.drop 2).isEmpty ∧
      (t.drop 2).all (fun c => (radixDigitVal 8 c).isSome) then
    some ((radixToNat 8 (t.drop 2) : Int))
  else if (t.take 2 = ['0', 'b'] ∨ t.take 2 = ['0', 'B']) ∧ ¬(t.drop 2).isEmpty ∧
      (t.drop 2).all (fun c => (radixDigitVal 2 c).isSome) then
    some ((radixToNat 2 (t.drop 2) : Int))
  else none

/-- Bit length of a natural number, fuel-based so it reduces in the kernel. -/
def bitLenAux : Nat → Nat → Nat
  | 0, _ => 0
  | _ + 1, 0 => 0
  | fuel + 1, n + 1 => bitLenAux fuel ((n + 1) / 2) + 1

/-- Bit length: `bitLen n = k` iff `2 ^ (k - 1) ≤ n < 2 ^ k` (and 0 for 0). -/
def bitLen (n : Nat) : Nat := bitLenAux n n

/-- Round a natural number to the nearest binary64-representable integer:
53 significant bits, round-to-nearest with ties to the even candidate.
Exact below `2 ^ 53`. -/
def roundToDouble (n : Nat) : Nat :=
  let b := bitLen n
  if b ≤ 53 then n
  else
    let k := b - 53
    let q := n / 2 ^ k
    let r := n % 2 ^ k
    let half := 2 ^ (k - 1)
    let q' := if half < r ∨ (r = half ∧ q % 2 = 1) then q + 1 else q
    q' * 2 ^ k

/-- The value the source's `BigInt(10 ** decimals)` produces: the JS double
`10 ** decimals` (binary64, correctly rounded) converted to `BigInt`.  It is
exactly `10 ^ decimals` for `decimals ≤ 22`, a 53-bit rounding of it for
`23 ≤ decimals ≤ 308`, and `none` beyond — the double overflows to
`Infinity` and the `BigInt` conversion throws a `RangeError`. -/
def jsPow10Double (d : Nat) : Option Nat :=
  let r := roundToDouble (10 ^ d)
  if bitLen r ≤ 1024 then some r else none

/-- `s.padEnd(d, '0').slice(0, d)`: right-pad with zeros to length `d`, then
truncate to the first `d` characters. -/
def padEndTake (s : List Char) (d : Nat) : List Char :=
  (s ++ List.replicate (d - s.length) '0').take d

/-- `s.padStart(d, '0')`: left-pad with zeros to length `d` (no-op when `s`
is already at least that long). -/
def padStartZeros (s : List Char) (d : Nat) : List Char :=
  List.replicate (d - s.length) '0' ++ s

/-- `s.replace(/0+$/, '')`: strip all trailing `'0'` characters. -/
def stripTrailingZeros (s : List Char) : List Char :=
  (s.reverse.dropWhile (fun c => c = '0')).reverse

/-! ## The token-amount codec (`src/lib/tokenUtils.ts`) -/

/-- The failure taxonomy entry for a malformed decimal string: the spec's
`InvalidAmount`, raised in the source as the exception thrown by `BigInt`
on a non-digit string. -/
inductive CodecError
  | InvalidAmount
deriving Repr, DecidableEq

/-- `parseTokenAmount` — the spec's `toBaseUnits`.  Splits on the decimal
point, right-pads/truncates the fractional part to `decimals` digits, and
returns `whole * 10 ^ decimals + fractional` (the power is
`BigInt(10) ** BigInt(decimals)`, exact for every `decimals`); a `BigInt`
failure on either part surfaces as `InvalidAmount`. -/
def parseTokenAmount (amount : List Char) (decimals : Nat) : Except CodecError Int :=
  let wholePart := wholePartOf amount
  let fractionalPart := fracPartOf amount
  let paddedFractional := padEndTake fractionalPart decimals
  match jsStringToBigInt wholePart, jsStringToBigInt paddedFractional with
  | some w, some f => .ok (w * 10 ^ decimals + f)
  | _, _ => .error .InvalidAmount

/-- `formatTokenAmount` — the spec's `toDisplayUnits`.  Integer
division/remainder by the `BigInt` of the JS double `10 ** decimals`
(`jsPow10Double`; `none` models the `RangeError` thrown for
`decimals ≥ 309`); a zero remainder omits the fractional part and the
separator; otherwise the remainder is left-padded to `decimals` digits and
its trailing zeros stripped. -/
def formatTokenAmount (amount : Nat) (decimals : Nat) : Option (List Char) :=
  match jsPow10Double decimals with
  | none => none
  | some divisor =>
      let wholePart := amount / divisor
      let fractionalPart := amount % divisor
      if fractionalPart = 0 then some (natToDec wholePart)
      else
        some (natToDec wholePart ++ '.' ::
          stripTrailingZeros (padStartZeros (natToDec fractionalPart) decimals))

/-- `isValidTokenAmount`: both parts must match `^\d+$`, and the fractional
part (when present) must not be longer than `decimals`.  The dot test in the
source distinguishes a missing part (`undefined`) from an empty one; here a
part is missing exactly when the string carries no dot. -/
def isValidTokenAmount (amount : List Char) (decimals : Nat) : Bool :=
  let wholePart := wholePartOf amount
  let fractionalPart := fracPartOf amount
  let hasDot := amount.any (fun c => c = '.')
  matchesDigitsRe wholePart &&
    (!hasDot || (matchesDigitsRe fractionalPart && fractionalPart.length ≤ decimals))

/-! ## Token metadata (`ARBITRUM_TOKENS`, `getTokenInfo`) -/

/-- `String.prototype.toUpperCase` on one character, for the ASCII range the
token symbols live in: `'a'`–`'z'` (code points 97–122) map 32 code points
down, everything else is unchanged. -/
def jsToUpperChar (c : Char) : Char :=
  if 97 ≤ c.toNat ∧ c.toNat ≤ 122 then Char.ofNat (c.toNat - 32) else c

/-- `String.prototype.toUpperCase`, character by character. -/
def jsToUpper (s : List Char) : List Char := s.map jsToUpperChar

/-- `TokenInfo` — `{symbol, decimals, address?}`. -/
structure TokenInfo where
  symbol : List Char
  decimals : Nat
  address : Option (List Char)
deriving Repr, DecidableEq

/-- The `ARBITRUM_TOKENS` record, as an association list keyed by symbol. -/
def ARBITRUM_TOKENS : List (List Char × TokenInfo) :=
  [(("ETH").toList, ⟨("ETH").toList, 18, none⟩),
   (("USDC").toList, ⟨("USDC").toList, 6,
      some (("0xaf88d065e77c8cC2239327C5EDb3A432268e5831").toList)⟩),
   (("USDT").toList, ⟨("USDT").toList, 6,
      some (("0xFd086bC7CD5C481DCC9C85ebE478A1C0b69FCbb9").toList)⟩),
   (("WETH").toList, ⟨("WETH").toList, 18,
      some (("0x82aF49447D8a07e3bd95BD0d56f35241523fBab1").toList)⟩),
   (("ARB").toList, ⟨("ARB").toList, 18,
      some (("0x912CE59144191C1204E64559FE8253a0e49E6548").toList)⟩)]

/-- `getTokenInfo`: upper-case the symbol, look it up in the table, and fall
back to an 18-decimals entry carrying the upper-cased symbol.  The JS object
access `ARBITRUM_TOKENS[upperSymbol]` is modelled as own-property lookup;
prototype-chain artifacts (a symbol literally named `toString` or `valueOf`)
lie outside the token-symbol space. -/
def getTokenInfo (symbol : List Char) : TokenInfo :=
  let upperSymbol := jsToUpper symbol
  match ARBITRUM_TOKENS.lookup upperSymbol with
  | some info => info
  | none => ⟨upperSymbol, 18, none⟩

/-! ## Transaction data and amount normalization -/

/-- One entry of `txPlan`: `{to, data, value, chainId}`.  The `to` field is
named `toAddr` because `to` is reserved in Lean; `value` is the non-negative
base-unit integer the code builds with `BigInt(value || '0')`. -/
structure TxStep where
  toAddr : List Char
  data : List Char
  value : Nat
  chainId : List Char
deriving Repr, DecidableEq

/-- `TransactionData` — `{tokenName, amount, action, chainId, txPlan}`. -/
structure TransactionData where
  tokenName : List Char
  amount : List Char
  action : List Char
  chainId : List Char
  txPlan : List TxStep
deriving Repr, DecidableEq

/-- The exact rational value of a plain non-negative decimal amount string
`digits[.digits]` — the shape the data model's invariant guarantees for
`amount` ("must parse as a non-negative decimal string").  This is the
claims' "numeric value of the amount"; it is *not* `parseFloat`, which
rounds to binary64 (`jsGtMillion` models that rounded comparison).  Other
shapes (signs, exponents, trailing garbage, no digits at all) are outside
the modelled amount space and map to `none`. -/
def decimalValueQ (s : List Char) : Option ℚ :=
  let w := wholePartOf s
  let f := fracPartOf s
  if w.all isDigitChar ∧ f.all isDigitChar ∧ w ++ f ≠ [] ∧
      (s = w ∨ s = w ++ '.' :: f) then
    some ((digitsToNat w : ℚ) + (digitsToNat f : ℚ) / (10 : ℚ) ^ f.length)
  else none

/-- The source's `parseFloat(data.amount) > 1000000` test, on the plain
decimal amounts of the data model (`decide`s over `Nat` so it evaluates in
the kernel).  `parseFloat` rounds the exact decimal value `v` to the nearest
binary64 number, ties to even.  1,000,000 is a binary64 number with even
mantissa (`1000000 * 2 ^ 33`), its successor is `1000000 + 2 ^ (-33)`, and
their midpoint is `1000000 + 2 ^ (-34)` — which rounds down, to the even
side.  By monotonicity of rounding, the rounded value exceeds 1,000,000
exactly when `v > 1000000 + 2 ^ (-34)`; cross-multiplied by `2 ^ 34 * 10 ^ |f|`
that is the integer comparison below.  A non-plain-decimal amount (outside
the data-model invariant) is modelled as `NaN`, whose comparison is false. -/
def jsGtMillion (s : List Char) : Bool :=
  let w := wholePartOf s
  let f := fracPartOf s
  (w.all isDigitChar && f.all isDigitChar && decide (w ++ f ≠ []) &&
      (decide (s = w) || decide (s = w ++ '.' :: f))) &&
    decide ((1000000 * 2 ^ 34 + 1) * 10 ^ f.length <
      2 ^ 34 * (digitsToNat w * 10 ^ f.length + digitsToNat f))

/-- `formatTransactionData` — the spec's `normalizeTransactionAmount`: when
`parseFloat` of `amount` exceeds 1,000,000 the amount is assumed to be in
base units and converted down with
`formatTokenAmount(BigInt(amount.split('.')[0]), decimals)`; otherwise the
amount is kept unchanged.  `formatTokenAmount` is fallible only for
`decimals ≥ 309`; `getTokenInfo` always yields 6 or 18 decimals
(`getTokenInfo_decimals`), so the `[]` default of `getD` is unreachable. -/
def formatTransactionData (data : TransactionData) : TransactionData :=
  let tokenInfo := getTokenInfo data.tokenName
  let formattedAmount :=
    if jsGtMillion data.amount then
      (formatTokenAmount (digitsToNat (wholePartOf data.amount))
        tokenInfo.decimals).getD []
    else data.amount
  { data with amount := formattedAmount }

/-- `action.charAt(0).toUpperCase() + action.slice(1)`. -/
def capitalizeFirst : List Char → List Char
  | [] => []
  | c :: rest => jsToUpperChar c :: rest

/-- `createTransactionSummary` — the spec's `summarize`: the template
string `{Capitalize(action)} {amount} {symbol}` over the normalized data. -/
def createTransactionSummary (data : TransactionData) : List Char :=
  let tokenInfo := getTokenInfo data.tokenName
  let formattedData := formatTransactionData data
  capitalizeFirst formattedData.action ++ ' ' :: formattedData.amount ++
    ' ' :: tokenInfo.symbol

/-! ## The `ChatTab` execution handlers as an event-driven machine

The component's hook state that the executor reads and writes:
`pendingTransaction`, `currentTxIndex` and `txHash`.  Each discrete external
event (form submission, approve click, reject click, the confirmation
watcher resolving) runs the corresponding handler to completion, producing a
new state and a list of observable effects — outbound wallet/agent calls and
the system messages the handler appends.  Environment responses that a
handler awaits (the chain-switch result, the agent response, the wallet's
submission result) are parameters of the event.  The transient `isLoading`
and `isTxPending` flags are true only while a handler is running and are
subsumed by this run-to-completion semantics. -/

/-- Arbitrum One's chain id (`arbitrum.id` from `wagmi/chains`). -/
def arbitrumChainId : Nat := 42161

/-- Observable effects of one handler run: outbound calls to the wallet and
agent collaborators, and the system/assistant chat messages the handlers
append (named after their content). -/
inductive Effect
  | submitCall (stepIndex : Nat) (step : TxStep)
  | switchNetworkCall (target : Nat)
  | agentRequestCall
  | msgConnectWallet
  | msgSwitching
  | msgSwitchOk
  | msgSwitchFailed
  | msgUserEcho
  | msgAssistant
  | msgSummary
  | msgPositions
  | msgApiFailed
  | msgCantProcess
  | msgSending (stepIndex : Nat)
  | msgSent (stepIndex : Nat)
  | msgFinalSent
  | msgConfirmed
  | msgTxFailed
  | msgCancelled
deriving Repr, DecidableEq

/-- The body of the agent's reply, as `handleSubmit` discriminates it:
a thrown fetch / non-ok response, a completed reply with a
`txPreview`/`txPlan` artifact, with a `positions` artifact, with no
artifact data, or a non-completed reply. -/
inductive AgentOutcome
  | requestFailed
  | planArtifact (d : TransactionData)
  | positionsArtifact
  | plainText
  | notCompleted
deriving Repr, DecidableEq

/-- The external events driving the component. -/
inductive Event
  /-- The chat form is submitted.  `inputNonempty` is the
  `inputValue.trim()` guard, `connected` and `chainId` the wallet session,
  `switchOk` the result the wallet gives a `switchChain` request, and
  `outcome` the agent's reply. -/
  | instructionSubmit (inputNonempty connected : Bool) (chainId : Nat)
      (switchOk : Bool) (outcome : AgentOutcome)
  /-- The approve button is clicked; `result` is the wallet's submission
  result — `some hash` on success, `none` when submission throws. -/
  | approveClick (result : Option Nat)
  /-- The reject button is clicked. -/
  | rejectClick
  /-- The confirmation watcher (`useWaitForTransactionReceipt`) reports the
  current `txHash` confirmed. -/
  | confirmationObserved
deriving Repr, DecidableEq

/-- The hook state the executor owns. -/
structure ChatState where
  pendingTransaction : Option TransactionData
  currentTxIndex : Nat
  txHash : Option Nat
deriving Repr, DecidableEq

/-- Initial hook state. -/
def initialChatState : ChatState := ⟨none, 0, none⟩

/-- `handleSubmit`: guard on empty input, wallet connection and active
chain (issuing a single `switchChain` request on the wrong network and
aborting when it is rejected), then send the instruction to the agent and
either install the formatted transaction plan, render positions, or render
the reply text. -/
def handleInstruction (s : ChatState) (inputNonempty connected : Bool)
    (chainId : Nat) (switchOk : Bool) (outcome : AgentOutcome) :
    ChatState × List Effect :=
  if !inputNonempty then (s, [])
  else if !connected then (s, [.msgConnectWallet])
  else if chainId ≠ arbitrumChainId ∧ !switchOk then
    (s, [.msgSwitching, .switchNetworkCall arbitrumChainId, .msgSwitchFailed])
  else
    let guardFx : List Effect :=
      if chainId ≠ arbitrumChainId then
        [.msgSwitching, .switchNetworkCall arbitrumChainId, .msgSwitchOk]
      else []
    match outcome with
    | .requestFailed =>
        (s, guardFx ++ [.msgUserEcho, .agentRequestCall, .msgApiFailed])
    | .planArtifact d =>
        let formatted := formatTransactionData d
        ({ s with pendingTransaction := some formatted, currentTxIndex := 0 },
         guardFx ++ [.msgUserEcho, .agentRequestCall, .msgAssistant, .msgSummary])
    | .positionsArtifact =>
        (s, guardFx ++ [.msgUserEcho, .agentRequestCall, .msgAssistant, .msgPositions])
    | .plainText =>
        (s, guardFx ++ [.msgUserEcho, .agentRequestCall, .msgAssistant])
    | .notCompleted =>
        (s, guardFx ++ [.msgUserEcho, .agentRequestCall, .msgCantProcess])

/-- `handleTransactionApprove`: no-op without a pending plan or past its
end; otherwise submit the current step.  On wallet success the hash is
recorded and, when further steps remain, `currentTxIndex` is advanced; on a
thrown submission the plan is discarded (`txHash` is left as it was). -/
def handleApprove (s : ChatState) (result : Option Nat) :
    ChatState × List Effect :=
  match s.pendingTransaction with
  | none => (s, [])
  | some p =>
      if h : s.currentTxIndex < p.txPlan.length then
        let currentTx := p.txPlan.get ⟨s.currentTxIndex, h⟩
        match result with
        | some hash =>
            if s.currentTxIndex + 1 < p.txPlan.length then
              ({ s with txHash := some hash,
                        currentTxIndex := s.currentTxIndex + 1 },
               [.msgSending s.currentTxIndex,
                .submitCall s.currentTxIndex currentTx,
                .msgSent s.currentTxIndex])
            else
              ({ s with txHash := some hash },
               [.msgSending s.currentTxIndex,
                .submitCall s.currentTxIndex currentTx, .msgFinalSent])
        | none =>
            ({ s with pendingTransaction := none, currentTxIndex := 0 },
             [.msgSending s.currentTxIndex,
              .submitCall s.currentTxIndex currentTx, .msgTxFailed])
      else (s, [])

/-- `handleTransactionReject`: clear the plan slot and the step index. -/
def handleReject (s : ChatState) : ChatState × List Effect :=
  ({ s with pendingTransaction := none, currentTxIndex := 0 }, [.msgCancelled])

/-- The confirmation `useEffect`: it runs only with a recorded hash and a
pending plan; it appends the confirmed message, returns early when
`currentTxIndex + 1` is still short of the plan length, and otherwise
resets the whole execution state. -/
def handleConfirmation (s : ChatState) : ChatState × List Effect :=
  match s.txHash, s.pendingTransaction with
  | some _, some p =>
      if s.currentTxIndex + 1 < p.txPlan.length then (s, [.msgConfirmed])
      else
        ({ pendingTransaction := none, currentTxIndex := 0, txHash := none },
         [.msgConfirmed])
  | _, _ => (s, [])

/-- One event dispatch. -/
def handleEvent (s : ChatState) : Event → ChatState × List Effect
  | .instructionSubmit inputNonempty connected chainId switchOk outcome =>
      handleInstruction s inputNonempty connected chainId switchOk outcome
  | .approveClick result => handleApprove s result
  | .rejectClick => handleReject s
  | .confirmationObserved => handleConfirmation s

/-- Run a sequence of events, accumulating all effects in order. -/
def runEvents (s : ChatState) : List Event → ChatState × List Effect
  | [] => (s, [])
  | e :: rest =>
      let next := handleEvent s e
      let final := runEvents next.1 rest
      (final.1, next.2 ++ final.2)

/-! ## Concrete sample data for trace evaluation -/

/-- First step of a two-step plan (an allowance approval). -/
def sampleStep0 : TxStep :=
  ⟨("0xa000").toList, ("0x01").toList, 0, ("42161").toList⟩

/-- Second step of a two-step plan (the supply consuming the allowance). -/
def sampleStep1 : TxStep :=
  ⟨("0xb000").toList, ("0x02").toList, 0, ("42161").toList⟩

/-- A two-step supply plan as the agent would deliver it. -/
def samplePlan : TransactionData :=
  ⟨("USDC").toList, ("0.1").toList, ("supply").toList, ("42161").toList,
   [sampleStep0, sampleStep1]⟩

/-- A one-step supply payload for the summary instance. -/
def sampleSupplyData : TransactionData :=
  ⟨("USDC").toList, ("0.1").toList, ("supply").toList, ("42161").toList,
   [sampleStep0]⟩

/-- A payload whose amount arrives in base units (2,000,000 > 1,000,000). -/
def sampleBaseUnitsData : TransactionData :=
  ⟨("USDC").toList, ("2000000").toList, ("supply").toList, ("42161").toList,
   [sampleStep0]⟩

/-- A payload whose amount exceeds 1,000,000 by `10 ^ (-19)` — far below the
half-ulp `2 ^ (-34)` at which `parseFloat`'s rounding first notices. -/
def sampleEpsilonData : TransactionData :=
  ⟨("USDC").toList, ("1000000.0000000000000000001").toList, ("supply").toList,
   ("42161").toList, [sampleStep0]⟩

/-- Plan received, step 0 approved and submitted (hash 100), then the
approve button clicked again (hash 101) before any confirmation event. -/
def raceTrace : List Event :=
  [.instructionSubmit true true arbitrumChainId true (.planArtifact samplePlan),
   .approveClick (some 100), .approveClick (some 101)]

/-- Plan received, step 0 approved and submitted (hash 100), then step 0's
confirmation observed, with step 1 never submitted. -/
def prematureResetTrace : List Event :=
  [.instructionSubmit true true arbitrumChainId true (.planArtifact samplePlan),
   .approveClick (some 100), .confirmationObserved]

end LendingAgent

namespace LendingAgent

/-! ## Digit-character and digit-string lemmas -/

theorem char_eq_of_toNat_eq {c : Char} {n : Nat} (h : c.toNat = n) : c = Char.ofNat n := by
  subst h
  exact (Char.ofNat_toNat c).symm

theorem isDigitChar_iff {c : Char} : isDigitChar c = true ↔ 48 ≤ c.toNat ∧ c.toNat ≤ 57 := by
  simp [isDigitChar]

theorem charToDigit_lt {c : Char} (h : isDigitChar c = true) : charToDigit c < 10 := by
  have := isDigitChar_iff.mp h
  unfold charToDigit
  omega

theorem isDigitChar_ne_dot {c : Char} (h : isDigitChar c = true) : c ≠ '.' := by
  rintro rfl
  simp [isDigitChar] at h

theorem charToDigit_eq_zero {c : Char} (hd : isDigitChar c = true)
    (h : charToDigit c = 0) : c = '0' := by
  have hb := isDigitChar_iff.mp hd
  have : c.toNat = 48 := by unfold charToDigit at h; omega
  rw [char_eq_of_toNat_eq this]

theorem decChar_charToDigit {c : Char} (h : isDigitChar c = true) :
    decChar (charToDigit c) = c := by
  have hb := isDigitChar_iff.mp h
  have h10 : c.toNat = 48 ∨ c.toNat = 49 ∨ c.toNat = 50 ∨ c.toNat = 51 ∨
      c.toNat = 52 ∨ c.toNat = 53 ∨ c.toNat = 54 ∨ c.toNat = 55 ∨
      c.toNat = 56 ∨ c.toNat = 57 := by omega
  rcases h10 with h' | h' | h' | h' | h' | h' | h' | h' | h' | h' <;>
    rw [char_eq_of_toNat_eq h'] <;> decide

theorem charToDigit_decChar {k : Nat} (h : k < 10) : charToDigit (decChar k) = k := by
  interval_cases k <;> decide

theorem isDigitChar_decChar {k : Nat} (h : k < 10) : isDigitChar (decChar k) = true := by
  interval_cases k <;> decide

theorem decChar_eq_zero_iff {k : Nat} (h : k < 10) : decChar k = '0' ↔ k = 0 := by
  interval_cases k <;> decide

theorem digitsToNat_foldl (ys : List Char) (a : Nat) :
    ys.foldl (fun n c => 10 * n + charToDigit c) a = a * 10 ^ ys.length + digitsToNat ys := by
  induction ys generalizing a with
  | nil => simp [digitsToNat]
  | cons c t ih =>
      rw [List.foldl_cons, ih (10 * a + charToDigit c)]
      have h0 : digitsToNat (c :: t)
          = (10 * 0 + charToDigit c) * 10 ^ t.length + digitsToNat t := by
        rw [show digitsToNat (c :: t)
            = t.foldl (fun n x => 10 * n + charToDigit x) (10 * 0 + charToDigit c) from rfl]
        exact ih _
      rw [h0, List.length_cons]
      ring

theorem digitsToNat_cons (c : Char) (t : List Char) :
    digitsToNat (c :: t) = charToDigit c * 10 ^ t.length + digitsToNat t := by
  have h := digitsToNat_foldl t (10 * 0 + charToDigit c)
  simpa [digitsToNat] using h

theorem digitsToNat_append (xs ys : List Char) :
    digitsToNat (xs ++ ys) = digitsToNat xs * 10 ^ ys.length + digitsToNat ys := by
  unfold digitsToNat
  rw [List.foldl_append]
  exact digitsToNat_foldl ys _

theorem digitsToNat_replicate_zero (k : Nat) :
    digitsToNat (List.replicate k '0') = 0 := by
  induction k with
  | zero => rfl
  | succ n ih =>
      rw [List.replicate_succ, digitsToNat_cons, ih]
      simp [charToDigit]

theorem digitsToNat_lt (s : List Char) (h : s.all isDigitChar = true) :
    digitsToNat s < 10 ^ s.length := by
  induction s with
  | nil => simp [digitsToNat]
  | cons c t ih =>
      rw [List.all_cons, Bool.and_eq_true] at h
      have h1 := charToDigit_lt h.1
      have h2 := ih h.2
      rw [digitsToNat_cons, List.length_cons, pow_succ]
      nlinarith

theorem digitsToNat_eq_ofDigits (s : List Char) :
    digitsToNat s = Nat.ofDigits 10 ((s.map charToDigit).reverse) := by
  induction s with
  | nil => rfl
  | cons c t ih =>
      rw [digitsToNat_cons, ih, List.map_cons, List.reverse_cons, Nat.ofDigits_append,
        Nat.ofDigits_singleton]
      simp only [List.length_reverse, List.length_map]
      ring

theorem digitsToNat_singleton (c : Char) : digitsToNat [c] = charToDigit c := by
  have h := digitsToNat_cons c []
  simp [digitsToNat] at h
  simp [h, digitsToNat]

theorem digitsToNat_mod_ten (s : List Char) (hne : s ≠ [])
    (hd : s.all isDigitChar = true) :
    digitsToNat s % 10 = charToDigit (s.getLast hne) := by
  have hdig : isDigitChar (s.getLast hne) = true := by
    rw [List.all_eq_true] at hd
    exact hd _ (List.getLast_mem hne)
  have hlt := charToDigit_lt hdig
  have hsplit := List.dropLast_append_getLast hne
  have h := digitsToNat_append s.dropLast [s.getLast hne]
  rw [hsplit, digitsToNat_singleton] at h
  simp only [List.length_singleton, pow_one] at h
  omega

/-! ## Lemmas about the canonical decimal rendering `natToDec` -/

theorem natToDecAux_zero (fuel : Nat) : natToDecAux fuel 0 = [] := by
  cases fuel <;> rfl

theorem natToDecAux_eq (fuel n : Nat) (hn : n ≠ 0) (hf : n ≤ fuel) :
    natToDecAux fuel n = ((Nat.digits 10 n).map decChar).reverse := by
  induction fuel generalizing n with
  | zero => omega
  | succ fuel ih =>
      obtain ⟨m, rfl⟩ : ∃ m, n = m + 1 := ⟨n - 1, by omega⟩
      rw [show natToDecAux (fuel + 1) (m + 1)
          = natToDecAux fuel ((m + 1) / 10) ++ [decChar ((m + 1) % 10)] from rfl]
      rw [Nat.digits_def' (by norm_num : (1 : ℕ) < 10) (Nat.succ_pos m),
        List.map_cons, List.reverse_cons]
      by_cases h0 : (m + 1) / 10 = 0
      · rw [h0, natToDecAux_zero]
        simp [h0]
      · have hdiv : (m + 1) / 10 < m + 1 := Nat.div_lt_self (Nat.succ_pos m) (by norm_num)
        rw [ih ((m + 1) / 10) h0 (by omega)]

theorem natToDec_eq (n : Nat) (hn : n ≠ 0) :
    natToDec n = ((Nat.digits 10 n).map decChar).reverse := by
  unfold natToDec
  rw [if_neg hn]
  exact natToDecAux_eq n n hn le_rfl

theorem natToDec_all_digits (n : Nat) : (natToDec n).all isDigitChar = true := by
  by_cases hn : n = 0
  · subst hn; decide
  · rw [natToDec_eq n hn, List.all_eq_true]
    intro c hc
    rw [List.mem_reverse, List.mem_map] at hc
    obtain ⟨k, hk, rfl⟩ := hc
    exact isDigitChar_decChar (Nat.digits_lt_base (by norm_num) hk)

theorem natToDec_ne_nil (n : Nat) : natToDec n ≠ [] := by
  by_cases hn : n = 0
  · subst hn; decide
  · rw [natToDec_eq n hn]
    simp [Nat.digits_ne_nil_iff_ne_zero.mpr hn]

theorem digitsToNat_rev_map_decChar (ds : List Nat) (h : ∀ x ∈ ds, x < 10) :
    digitsToNat ((ds.map decChar).reverse) = Nat.ofDigits 10 ds := by
  induction ds with
  | nil => rfl
  | cons d t ih =>
      rw [List.map_cons, List.reverse_cons, digitsToNat_append, digitsToNat_singleton,
        charToDigit_decChar (h d (by simp)), Nat.ofDigits_cons,
        ih (fun x hx => h x (by simp [hx]))]
      simp only [List.length_singleton, pow_one]
      ring

theorem digitsToNat_natToDec (n : Nat) : digitsToNat (natToDec n) = n := by
  by_cases hn : n = 0
  · subst hn; decide
  · rw [natToDec_eq n hn,
      digitsToNat_rev_map_decChar _ (fun x hx => Nat.digits_lt_base (by norm_num) hx),
      Nat.ofDigits_digits]

theorem charToDigit_ne_zero {c : Char} (hd : isDigitChar c = true) (h : c ≠ '0') :
    charToDigit c ≠ 0 :=
  fun h0 => h (charToDigit_eq_zero hd h0)

theorem natToDec_digitsToNat (s : List Char) (hd : s.all isDigitChar = true)
    (hne : s ≠ []) (hh : s.head hne ≠ '0') : natToDec (digitsToNat s) = s := by
  obtain ⟨c, t, rfl⟩ := List.exists_cons_of_ne_nil hne
  have hall := hd
  rw [List.all_cons, Bool.and_eq_true] at hall
  have hhead : c ≠ '0' := by simpa using hh
  have hlt : ∀ x ∈ ((c :: t).map charToDigit).reverse, x < 10 := by
    intro x hx
    rw [List.mem_reverse, List.mem_map] at hx
    obtain ⟨a, ha, rfl⟩ := hx
    rw [List.all_eq_true] at hd
    exact charToDigit_lt (hd a ha)
  have hlast : ∀ h : ((c :: t).map charToDigit).reverse ≠ [],
      (((c :: t).map charToDigit).reverse).getLast h ≠ 0 := by
    intro h
    rw [List.getLast_reverse]
    simp only [List.map_cons, List.head_cons]
    exact charToDigit_ne_zero hall.1 hhead
  have hdig := Nat.digits_ofDigits 10 (by norm_num)
    (((c :: t).map charToDigit).reverse) hlt hlast
  have hval := digitsToNat_eq_ofDigits (c :: t)
  have hv0 : digitsToNat (c :: t) ≠ 0 := by
    intro h0
    rw [hval] at h0
    rw [h0, Nat.digits_zero] at hdig
    simp at hdig
  rw [natToDec_eq _ hv0, hval, hdig, List.map_reverse, List.reverse_reverse,
    List.map_map]
  have : ((c :: t).map (decChar ∘ charToDigit)) = (c :: t).map id := by
    apply List.map_congr_left
    intro a ha
    rw [List.all_eq_true] at hd
    exact decChar_charToDigit (hd a ha)
  rw [this, List.map_id]

theorem ofDigits_replicate_zero (k : Nat) :
    Nat.ofDigits 10 (List.replicate k 0) = (0 : ℕ) := by
  induction k with
  | zero => rfl
  | succ n ih => rw [List.replicate_succ, Nat.ofDigits_cons, ih]

theorem digits_mul_pow (v k : Nat) (hv : v ≠ 0) :
    Nat.digits 10 (v * 10 ^ k) = List.replicate k 0 ++ Nat.digits 10 v := by
  have hof : Nat.ofDigits 10 (List.replicate k 0 ++ Nat.digits 10 v)
      = ((v * 10 ^ k : ℕ) : ℕ) := by
    rw [Nat.ofDigits_append, ofDigits_replicate_zero, Nat.ofDigits_digits,
      List.length_replicate]
    ring
  have hlt : ∀ x ∈ List.replicate k 0 ++ Nat.digits 10 v, x < 10 := by
    intro x hx
    rcases List.mem_append.mp hx with h | h
    · rw [List.eq_of_mem_replicate h]; norm_num
    · exact Nat.digits_lt_base (by norm_num) h
  have hlast : ∀ h : List.replicate k 0 ++ Nat.digits 10 v ≠ [],
      (List.replicate k 0 ++ Nat.digits 10 v).getLast h ≠ 0 := by
    intro h
    rw [List.getLast_append]
    have : (Nat.digits 10 v).isEmpty = false := by
      simp [List.isEmpty_iff, Nat.digits_ne_nil_iff_ne_zero.mpr hv]
    rw [dif_neg (by simp [this])]
    exact Nat.getLast_digit_ne_zero 10 hv
  calc Nat.digits 10 (v * 10 ^ k)
      = Nat.digits 10 (Nat.ofDigits 10 (List.replicate k 0 ++ Nat.digits 10 v)) := by
        rw [hof]
    _ = List.replicate k 0 ++ Nat.digits 10 v :=
        Nat.digits_ofDigits 10 (by norm_num) _ hlt hlast

theorem natToDec_mul_pow (v k : Nat) (hv : v ≠ 0) :
    natToDec (v * 10 ^ k) = natToDec v ++ List.replicate k '0' := by
  have hvk : v * 10 ^ k ≠ 0 :=
    Nat.mul_ne_zero hv (pow_ne_zero _ (by norm_num))
  rw [natToDec_eq _ hvk, digits_mul_pow v k hv, List.map_append,
    List.reverse_append, natToDec_eq v hv, List.map_replicate,
    List.reverse_replicate]
  rfl

theorem natToDec_getLast? (v : Nat) (hv : v ≠ 0) :
    (natToDec v).getLast? = some (decChar (v % 10)) := by
  rw [natToDec_eq v hv, List.getLast?_reverse,
    Nat.digits_def' (by norm_num : (1 : ℕ) < 10) (Nat.pos_of_ne_zero hv),
    List.map_cons, List.head?_cons]

/-! ## Splitting, padding and stripping lemmas -/

theorem takeWhile_append_of_all {p : Char → Bool} (l r : List Char)
    (h : ∀ c ∈ l, p c = true) :
    (l ++ r).takeWhile p = l ++ r.takeWhile p := by
  induction l with
  | nil => simp
  | cons c t ih =>
      rw [List.cons_append, List.takeWhile_cons, if_pos (h c (by simp)),
        ih (fun x hx => h x (by simp [hx]))]
      rfl

theorem dropWhile_append_of_all {p : Char → Bool} (l r : List Char)
    (h : ∀ c ∈ l, p c = true) :
    (l ++ r).dropWhile p = r.dropWhile p := by
  induction l with
  | nil => simp
  | cons c t ih =>
      rw [List.cons_append, List.dropWhile_cons, if_pos (h c (by simp))]
      exact ih (fun x hx => h x (by simp [hx]))

theorem all_imp_ne_dot {s : List Char} (h : s.all isDigitChar = true) :
    ∀ c ∈ s, (c ≠ '.' : Bool) = true := by
  intro c hc
  rw [List.all_eq_true] at h
  simpa using isDigitChar_ne_dot (h c hc)

theorem wholePartOf_digits (s : List Char) (h : s.all isDigitChar = true) :
    wholePartOf s = s := by
  unfold wholePartOf
  rw [List.takeWhile_eq_self_iff]
  intro c hc
  simpa using (all_imp_ne_dot h) c hc

theorem fracPartOf_digits (s : List Char) (h : s.all isDigitChar = true) :
    fracPartOf s = [] := by
  unfold fracPartOf
  have : s.dropWhile (fun c => (c ≠ '.' : Bool)) = [] := by
    rw [List.dropWhile_eq_nil_iff]
    intro c hc
    simpa using (all_imp_ne_dot h) c hc
  rw [this]
  rfl

theorem wholePartOf_append_dot (w f : List Char) (hw : w.all isDigitChar = true) :
    wholePartOf (w ++ '.' :: f) = w := by
  unfold wholePartOf
  rw [takeWhile_append_of_all w ('.' :: f) (all_imp_ne_dot hw), List.takeWhile_cons]
  simp

theorem fracPartOf_append_dot (w f : List Char) (hw : w.all isDigitChar = true)
    (hf : f.all isDigitChar = true) :
    fracPartOf (w ++ '.' :: f) = f := by
  unfold fracPartOf
  rw [dropWhile_append_of_all w ('.' :: f) (all_imp_ne_dot hw), List.dropWhile_cons]
  simp only [decide_eq_true_eq]
  rw [if_neg (by simp), List.drop_one, List.tail_cons, List.takeWhile_eq_self_iff]
  intro c hc
  simpa using (all_imp_ne_dot hf) c hc

theorem padEndTake_of_le (f : List Char) (d : Nat) (h : f.length ≤ d) :
    padEndTake f d = f ++ List.replicate (d - f.length) '0' := by
  unfold padEndTake
  apply List.take_of_length_le
  simp [List.length_append, List.length_replicate]
  omega

theorem dropWhile_replicate_zero_append (k : Nat) (xs : List Char) :
    List.dropWhile (fun c => (c = '0' : Bool)) (List.replicate k '0' ++ xs)
      = List.dropWhile (fun c => (c = '0' : Bool)) xs := by
  induction k with
  | zero => simp
  | succ n ih =>
      rw [List.replicate_succ, List.cons_append, List.dropWhile_cons, if_pos (by simp)]
      exact ih

theorem stripTrailingZeros_append_zeros (l : List Char) (k : Nat) :
    stripTrailingZeros (l ++ List.replicate k '0') = stripTrailingZeros l := by
  unfold stripTrailingZeros
  rw [List.reverse_append, List.reverse_replicate, dropWhile_replicate_zero_append]

theorem stripTrailingZeros_of_getLast? (l : List Char)
    (h : l.getLast? ≠ some '0') : stripTrailingZeros l = l := by
  unfold stripTrailingZeros
  cases hrev : l.reverse with
  | nil =>
      have : l = [] := by simpa using congrArg List.reverse hrev
      simp [this]
  | cons c t =>
      have hc : c ≠ '0' := by
        intro hc0
        apply h
        rw [← List.head?_reverse, hrev, List.head?_cons, hc0]
      rw [List.dropWhile_cons, if_neg (by simpa using hc), ← hrev,
        List.reverse_reverse]

/-- Every all-digit string with nonzero value is its canonical rendering
preceded by its superfluous leading zeros. -/
theorem digit_decomposition (s : List Char) (hd : s.all isDigitChar = true)
    (hv : digitsToNat s ≠ 0) :
    (natToDec (digitsToNat s)).length ≤ s.length ∧
      s = List.replicate (s.length - (natToDec (digitsToNat s)).length) '0' ++
        natToDec (digitsToNat s) := by
  have hsplit := List.takeWhile_append_dropWhile (fun c => (c = '0' : Bool)) s
  set t := s.takeWhile (fun c => (c = '0' : Bool)) with ht
  set g := s.dropWhile (fun c => (c = '0' : Bool)) with hg
  have htrep : t = List.replicate t.length '0' := by
    rw [List.eq_replicate_iff]
    refine ⟨rfl, ?_⟩
    intro b hb
    have := List.mem_takeWhile_imp hb
    simpa using this
  have hgsub : g ⊆ s := (List.dropWhile_sublist _).subset
  have hgd : g.all isDigitChar = true := by
    rw [List.all_eq_true] at hd ⊢
    exact fun x hx => hd x (hgsub hx)
  have hgne : g ≠ [] := by
    intro h0
    apply hv
    rw [← hsplit, h0, List.append_nil, htrep]
    exact digitsToNat_replicate_zero t.length
  have hghead : g.head hgne ≠ '0' := by
    have := List.head_dropWhile_not (fun c => (c = '0' : Bool)) s (by rw [← hg]; exact hgne)
    simpa [← hg] using this
  have hval : digitsToNat s = digitsToNat g := by
    conv_lhs => rw [← hsplit]
    rw [digitsToNat_append]
    conv_lhs => rw [htrep]
    rw [digitsToNat_replicate_zero]
    ring
  have hcan : natToDec (digitsToNat s) = g := by
    rw [hval]
    exact natToDec_digitsToNat g hgd hgne hghead
  have hlen : s.length = t.length + g.length := by
    conv_lhs => rw [← hsplit]
    exact List.length_append t g
  constructor
  · rw [hcan]; omega
  · rw [hcan]
    have : s.length - g.length = t.length := by omega
    rw [this, ← htrep, hsplit]

/-! ## Structure of `parseTokenAmount` and `formatTokenAmount` -/

theorem replicate_zero_all_digits (k : Nat) :
    (List.replicate k '0').all isDigitChar = true := by
  rw [List.all_eq_true]
  intro c hc
  rw [List.eq_of_mem_replicate hc]
  decide

theorem append_all_digits {l r : List Char} (hl : l.all isDigitChar = true)
    (hr : r.all isDigitChar = true) : (l ++ r).all isDigitChar = true := by
  rw [List.all_eq_true] at *
  intro c hc
  rcases List.mem_append.mp hc with h | h
  · exact hl c h
  · exact hr c h

theorem padEndTake_all_digits {f : List Char} (d : Nat)
    (hf : f.all isDigitChar = true) : (padEndTake f d).all isDigitChar = true := by
  rw [List.all_eq_true]
  intro c hc
  have hmem : c ∈ f ++ List.replicate (d - f.length) '0' :=
    List.take_subset _ _ hc
  have hall := append_all_digits hf (replicate_zero_all_digits (d - f.length))
  rw [List.all_eq_true] at hall
  exact hall c hmem

theorem isJsWhitespace_of_digit {c : Char} (h : isDigitChar c = true) :
    isJsWhitespace c = false := by
  have hb := isDigitChar_iff.mp h
  rw [Bool.eq_false_iff]
  intro hws
  simp only [isJsWhitespace, Bool.or_eq_true, Bool.and_eq_true,
    decide_eq_true_eq] at hws
  omega

theorem trimJs_of_digits (s : List Char) (h : s.all isDigitChar = true) :
    trimJs s = s := by
  rw [List.all_eq_true] at h
  unfold trimJs
  have h1 : s.dropWhile isJsWhitespace = s := by
    cases s with
    | nil => rfl
    | cons c t =>
        rw [List.dropWhile_cons, if_neg]
        rw [isJsWhitespace_of_digit (h c (by simp))]
        simp
  rw [h1]
  have h2 : s.reverse.dropWhile isJsWhitespace = s.reverse := by
    cases hs : s.reverse with
    | nil => rfl
    | cons c t =>
        have hc : c ∈ s := by
          rw [← List.mem_reverse, hs]
          simp
        rw [List.dropWhile_cons, if_neg]
        rw [isJsWhitespace_of_digit (h c hc)]
        simp
  rw [h2, List.reverse_reverse]

theorem jsStringToBigInt_digits (s : List Char) (h : s.all isDigitChar = true) :
    jsStringToBigInt s = some ((digitsToNat s : Int)) := by
  have htrim := trimJs_of_digits s h
  by_cases hs : s = []
  · subst hs; rfl
  · have hem : ¬(s.isEmpty = true) := by simp [List.isEmpty_iff, hs]
    have hm : matchesDigitsRe s = true := by
      unfold matchesDigitsRe
      simp [List.isEmpty_iff, hs, h]
    simp only [jsStringToBigInt, htrim]
    rw [if_neg hem, if_pos hm]

/-- `jsStringToBigInt` succeeds exactly on the `StringToBigInt` grammar. -/
theorem jsStringToBigInt_isSome (s : List Char) :
    (jsStringToBigInt s).isSome = isBigIntString s := by
  simp only [jsStringToBigInt, isBigIntString]
  split_ifs with h1 h2 h3 h4 h5 h6 h7 <;>
    simp_all [Bool.or_eq_true, Bool.and_eq_true, decide_eq_true_eq]
  all_goals tauto

/-- For `decimals ≤ 22` the double `10 ** decimals` is exact. -/
theorem jsPow10Double_of_le22 (d : Nat) (hd : d ≤ 22) :
    jsPow10Double d = some (10 ^ d) := by
  interval_cases d <;> decide

theorem formatTokenAmount_of_le22 (n d : Nat) (hd : d ≤ 22) :
    formatTokenAmount n d =
      if n % 10 ^ d = 0 then some (natToDec (n / 10 ^ d))
      else some (natToDec (n / 10 ^ d) ++ '.' ::
        stripTrailingZeros (padStartZeros (natToDec (n % 10 ^ d)) d)) := by
  unfold formatTokenAmount
  rw [jsPow10Double_of_le22 d hd]

theorem formatTokenAmount_isSome_of_le22 (n d : Nat) (hd : d ≤ 22) :
    ∃ out, formatTokenAmount n d = some out := by
  rw [formatTokenAmount_of_le22 n d hd]
  by_cases h : n % 10 ^ d = 0
  · exact ⟨_, by rw [if_pos h]⟩
  · exact ⟨_, by rw [if_neg h]⟩

theorem digitsToNat_padEndTake (f : List Char) (d : Nat)
    (hf : f.all isDigitChar = true) :
    digitsToNat (padEndTake f d) = digitsToNat f * 10 ^ d / 10 ^ f.length := by
  by_cases h : f.length ≤ d
  · rw [padEndTake_of_le f d h, digitsToNat_append, digitsToNat_replicate_zero,
      List.length_replicate, Nat.add_zero]
    have hsplit : 10 ^ d = 10 ^ f.length * 10 ^ (d - f.length) := by
      rw [← pow_add]
      congr 1
      omega
    rw [hsplit, mul_left_comm,
      Nat.mul_div_cancel_left _ (pow_pos (by norm_num : (0:ℕ) < 10) f.length)]
  · have hd : d ≤ f.length := by omega
    have htake : padEndTake f d = f.take d := by
      unfold padEndTake
      have : d - f.length = 0 := by omega
      rw [this, List.replicate_zero, List.append_nil]
    have hdrop : (f.drop d).all isDigitChar = true := by
      rw [List.all_eq_true] at hf ⊢
      exact fun x hx => hf x (List.drop_subset _ _ hx)
    have hlen : (f.drop d).length = f.length - d := List.length_drop d f
    have hval : digitsToNat f
        = digitsToNat (f.take d) * 10 ^ (f.length - d) + digitsToNat (f.drop d) := by
      conv_lhs => rw [← List.take_append_drop d f]
      rw [digitsToNat_append, hlen]
    have hless : digitsToNat (f.drop d) < 10 ^ (f.length - d) := by
      have := digitsToNat_lt (f.drop d) hdrop
      rwa [hlen] at this
    rw [htake, hval]
    have hpow : 10 ^ f.length = 10 ^ (f.length - d) * 10 ^ d := by
      rw [← pow_add]
      congr 1
      omega
    have hm : 0 < 10 ^ (f.length - d) := pow_pos (by norm_num) _
    rw [hpow, Nat.mul_div_mul_right _ _ (pow_pos (by norm_num : (0:ℕ) < 10) d),
      Nat.mul_comm (digitsToNat (f.take d)) (10 ^ (f.length - d)),
      Nat.mul_add_div hm, Nat.div_eq_of_lt hless, Nat.add_zero]

theorem parseTokenAmount_digits (w : List Char) (d : Nat)
    (hw : w.all isDigitChar = true) :
    parseTokenAmount w d = .ok (((digitsToNat w * 10 ^ d : ℕ) : ℤ)) := by
  unfold parseTokenAmount
  simp only [wholePartOf_digits w hw, fracPartOf_digits w hw]
  have hpad : padEndTake [] d = List.replicate d '0' := by
    rw [padEndTake_of_le [] d (by simp)]
    simp
  simp only [hpad, jsStringToBigInt_digits w hw,
    jsStringToBigInt_digits _ (replicate_zero_all_digits d),
    digitsToNat_replicate_zero]
  congr 1
  push_cast
  ring

theorem parseTokenAmount_append_dot (w f : List Char) (d : Nat)
    (hw : w.all isDigitChar = true) (hf : f.all isDigitChar = true) :
    parseTokenAmount (w ++ '.' :: f) d
      = .ok (((digitsToNat w * 10 ^ d + digitsToNat (padEndTake f d) : ℕ) : ℤ)) := by
  unfold parseTokenAmount
  simp only [wholePartOf_append_dot w f hw, fracPartOf_append_dot w f hw hf,
    jsStringToBigInt_digits w hw,
    jsStringToBigInt_digits _ (padEndTake_all_digits d hf)]
  congr 1
  push_cast
  ring

/-! ## Claim theorems for the codec -/

/-- C4 (corrected): `toBaseUnits` fails with `InvalidAmount` exactly when the
integer part, or the fractional part after right-padding and truncation to
`decimals` digits, fails the `StringToBigInt` grammar (after whitespace
trimming: empty, optionally-signed nonempty decimal digits, or an unsigned
`0x`/`0o`/`0b` radix literal); in particular `toBaseUnits("1a.2", 6)` fails
with `InvalidAmount`, while `toBaseUnits("+1", 6)` succeeds.  (The original
claim's trigger — either split part failing `^\d+$` — is refuted by
`c4_counterexample`: an empty integer part fails the regex yet `BigInt('')`
evaluates to `0`.) -/
theorem c4_invalidAmount_characterization :
    (∀ (amount : List Char) (d : Nat),
      parseTokenAmount amount d = .error .InvalidAmount ↔
        (isBigIntString (wholePartOf amount) = false ∨
          isBigIntString (padEndTake (fracPartOf amount) d) = false)) ∧
    parseTokenAmount (("1a.2").toList) 6 = .error .InvalidAmount ∧
    parseTokenAmount (("+1").toList) 6 = .ok 1000000 := by
  refine ⟨?_, rfl, rfl⟩
  intro amount d
  have h1 := jsStringToBigInt_isSome (wholePartOf amount)
  have h2 := jsStringToBigInt_isSome (padEndTake (fracPartOf amount) d)
  unfold parseTokenAmount
  cases hw : jsStringToBigInt (wholePartOf amount) <;>
    cases hf : jsStringToBigInt (padEndTake (fracPartOf amount) d) <;>
      rw [hw] at h1 <;> rw [hf] at h2 <;>
        simp_all

/-- C4 witness at `"1a.2"`, `d = 6`: the integer part `"1a"` fails the
`BigInt` grammar, so parsing fails with `InvalidAmount`. -/
theorem c4_invalidAmount_characterization_witness :
    isBigIntString (wholePartOf (("1a.2").toList)) = false ∧
    parseTokenAmount (("1a.2").toList) 6 = .error .InvalidAmount :=
  ⟨by decide,
   (c4_invalidAmount_characterization.1 (("1a.2").toList) 6).mpr
     (Or.inl (by decide))⟩

/-- C4 counterexample: the integer part of `".5"` is empty, hence fails the
`^\d+$` pattern, yet `toBaseUnits(".5", 6)` succeeds (with 500000) instead
of failing with `InvalidAmount`, because `BigInt('')` is `0`; likewise
`"+1"` — whose integer part `"+1"` fails `^\d+$` — parses to `1000000`
because `StringToBigInt` accepts a sign. -/
theorem c4_counterexample :
    matchesDigitsRe (wholePartOf ((".5").toList)) = false ∧
    parseTokenAmount ((".5").toList) 6 = .ok 500000 ∧
    matchesDigitsRe (wholePartOf (("+1").toList)) = false ∧
    parseTokenAmount (("+1").toList) 6 = .ok 1000000 :=
  ⟨rfl, rfl, rfl, rfl⟩

/-- C5 (confirmed): on a valid display string, `toBaseUnits` splits on the
decimal point and returns `integerPart * 10 ^ decimals + fractionalPadded`,
where the fractional contribution is the right-padded, truncated (never
rounded) fractional part — arithmetically `frac * 10 ^ decimals / 10 ^ |frac|`;
in particular `toBaseUnits("123", 18) = 123 * 10 ^ 18` and
`toBaseUnits("12.3456789", 6)` truncates to 6 fractional digits without
raising. -/
theorem c5_toBaseUnits_value (w f : List Char) (d : Nat)
    (hw : w.all isDigitChar = true) (hf : f.all isDigitChar = true) :
    parseTokenAmount w d = .ok (((digitsToNat w * 10 ^ d : ℕ) : ℤ)) ∧
    parseTokenAmount (w ++ '.' :: f) d
      = .ok (((digitsToNat w * 10 ^ d
          + digitsToNat f * 10 ^ d / 10 ^ f.length : ℕ) : ℤ)) ∧
    parseTokenAmount (("123").toList) 18 = .ok (123 * 10 ^ 18) ∧
    parseTokenAmount (("12.3456789").toList) 6 = .ok 12345678 := by
  refine ⟨parseTokenAmount_digits w d hw, ?_, by rfl, by rfl⟩
  rw [parseTokenAmount_append_dot w f d hw hf, digitsToNat_padEndTake f d hf]

/-- C5 witness at `w = "12"`, `f = "3456789"`, `d = 6`. -/
theorem c5_toBaseUnits_value_witness :
    (("12").toList).all isDigitChar = true ∧
    (("3456789").toList).all isDigitChar = true ∧
    parseTokenAmount (("12").toList ++ '.' :: ("3456789").toList) 6
      = .ok (((digitsToNat (("12").toList) * 10 ^ 6 +
          digitsToNat (("3456789").toList) * 10 ^ 6
            / 10 ^ (("3456789").toList).length : ℕ) : ℤ)) :=
  ⟨rfl, rfl, (c5_toBaseUnits_value (("12").toList) (("3456789").toList) 6 rfl rfl).2.1⟩

/-- C6 counterexample: the source divides by `BigInt(10 ** decimals)`, not by
`10 ^ decimals`.  At `decimals = 23` the double `10 ** 23` rounds to
`99999999999999991611392`, so although `10 ^ 23 % 10 ^ 23 = 0` — the claim
would demand the separator-free output `"1"` — the source renders
`10 ^ 23` base units as `"1.00000000000000008388608"`. -/
theorem c6_counterexample :
    10 ^ 23 % 10 ^ 23 = 0 ∧
    formatTokenAmount (10 ^ 23) 23
      = some (("1.00000000000000008388608").toList) ∧
    formatTokenAmount (10 ^ 23) 23 ≠ some (natToDec (10 ^ 23 / 10 ^ 23)) := by
  refine ⟨by norm_num, by decide, by decide⟩

/-- C6 (corrected): `toDisplayUnits` performs integer division/remainder by
the `BigInt` of the JS double `10 ** decimals`, which equals `10 ^ decimals`
exactly when `decimals ≤ 22` — covering every configured token (6 and 18
decimals).  For such `decimals`: a zero remainder omits the fractional part
and the separator entirely (no `'.'` occurs in the output), and a nonzero
remainder yields the whole part, the separator, and the zero-padded
remainder with its trailing zeros stripped; in particular
`toDisplayUnits(100000, 6) = "0.1"`.  (`c6_counterexample` shows the bound
is necessary: at `decimals = 23` the divisor is not `10 ^ 23`.) -/
theorem c6_toDisplayUnits_structure :
    (∀ n d : Nat, d ≤ 22 → n % 10 ^ d = 0 →
      formatTokenAmount n d = some (natToDec (n / 10 ^ d)) ∧
        '.' ∉ natToDec (n / 10 ^ d)) ∧
    (∀ n d : Nat, d ≤ 22 → n % 10 ^ d ≠ 0 →
      formatTokenAmount n d = some (natToDec (n / 10 ^ d) ++ '.' ::
        stripTrailingZeros (padStartZeros (natToDec (n % 10 ^ d)) d))) ∧
    formatTokenAmount 100000 6 = some (("0.1").toList) := by
  refine ⟨?_, ?_, by rfl⟩
  · intro n d hd h
    refine ⟨by rw [formatTokenAmount_of_le22 n d hd, if_pos h], ?_⟩
    intro hmem
    have hall := natToDec_all_digits (n / 10 ^ d)
    rw [List.all_eq_true] at hall
    exact isDigitChar_ne_dot (hall '.' hmem) rfl
  · intro n d hd h
    rw [formatTokenAmount_of_le22 n d hd, if_neg h]

/-- C6 witness at `n = 2000000`, `d = 6` (zero remainder, no separator). -/
theorem c6_toDisplayUnits_structure_witness :
    (6 : Nat) ≤ 22 ∧
    2000000 % 10 ^ 6 = 0 ∧
    formatTokenAmount 2000000 6 = some (natToDec (2000000 / 10 ^ 6)) ∧
    '.' ∉ natToDec (2000000 / 10 ^ 6) :=
  ⟨by norm_num, by norm_num,
   (c6_toDisplayUnits_structure.1 2000000 6 (by norm_num) (by norm_num)).1,
   (c6_toDisplayUnits_structure.1 2000000 6 (by norm_num) (by norm_num)).2⟩

/-- C2 counterexample: two failures of the claim as stated.  `"00.1"` is a
valid display string by the codec's own validator, its fractional part `"1"`
has length `1 ≤ 6` and carries no trailing zero, yet the round trip returns
`"0.1" ≠ "00.1"` — superfluous leading zeros of the integer part are not
reproduced.  And at `decimals = 23` the canonical `"1"` parses to `10 ^ 23`
but renders through the rounded divisor `BigInt(10 ** 23)` as
`"1.00000000000000008388608" ≠ "1"`. -/
theorem c2_counterexample :
    isValidTokenAmount (("00.1").toList) 6 = true ∧
    (fracPartOf (("00.1").toList)).length ≤ 6 ∧
    (fracPartOf (("00.1").toList)).getLast? ≠ some '0' ∧
    parseTokenAmount (("00.1").toList) 6 = .ok 100000 ∧
    formatTokenAmount 100000 6 ≠ some (("00.1").toList) ∧
    parseTokenAmount (("1").toList) 23 = .ok (10 ^ 23) ∧
    formatTokenAmount (10 ^ 23) 23 ≠ some (("1").toList) := by
  refine ⟨rfl, by decide, by decide, rfl, by decide, rfl, by decide⟩

/-- C2 (corrected): the round trip `toDisplayUnits ∘ toBaseUnits` is the
identity on canonical display strings — an integer part that is the
canonical decimal rendering of a natural number (no superfluous leading
zeros), either alone or followed by a nonempty all-digit fractional part of
length at most `decimals` with no trailing zero — whenever
`decimals ≤ 22`, the range on which the display divisor `10 ** decimals` is
an exact double (it covers every configured token).  (`c2_counterexample`
shows both restrictions are necessary.) -/
theorem c2_roundTrip_canonical (d w : Nat) (f : List Char) (hd22 : d ≤ 22)
    (hf : f.all isDigitChar = true) (hne : f ≠ []) (hlen : f.length ≤ d)
    (hlast : f.getLast? ≠ some '0') :
    (∃ v : ℕ, parseTokenAmount (natToDec w) d = .ok ((v : ℤ)) ∧
      formatTokenAmount v d = some (natToDec w)) ∧
    (∃ v : ℕ, parseTokenAmount (natToDec w ++ '.' :: f) d = .ok ((v : ℤ)) ∧
      formatTokenAmount v d = some (natToDec w ++ '.' :: f)) := by
  have hwd : (natToDec w).all isDigitChar = true := natToDec_all_digits w
  have hwval : digitsToNat (natToDec w) = w := digitsToNat_natToDec w
  have hDpos : 0 < 10 ^ d := pow_pos (by norm_num) d
  constructor
  · refine ⟨w * 10 ^ d, ?_, ?_⟩
    · rw [parseTokenAmount_digits _ d hwd, hwval]
    · rw [formatTokenAmount_of_le22 _ d hd22,
        if_pos (Nat.mul_mod_left w (10 ^ d)),
        Nat.mul_div_cancel w hDpos]
  · -- the fractional value and its padding exponent
    set fval := digitsToNat f with hfval
    set k := d - f.length with hk
    have hflt : fval < 10 ^ f.length := digitsToNat_lt f hf
    have hlastc : f.getLast hne ≠ '0' := by
      intro h0
      apply hlast
      rw [List.getLast?_eq_getLast f hne, h0]
    have hlastd : isDigitChar (f.getLast hne) = true := by
      rw [List.all_eq_true] at hf
      exact hf _ (List.getLast_mem hne)
    have hmod : fval % 10 = charToDigit (f.getLast hne) :=
      digitsToNat_mod_ten f hne hf
    have hmodne : fval % 10 ≠ 0 := by
      rw [hmod]
      exact charToDigit_ne_zero hlastd hlastc
    have hfne0 : fval ≠ 0 := fun h0 => hmodne (by rw [h0])
    have hrne : fval * 10 ^ k ≠ 0 :=
      Nat.mul_ne_zero hfne0 (pow_ne_zero _ (by norm_num))
    have hrlt : fval * 10 ^ k < 10 ^ d := by
      calc fval * 10 ^ k < 10 ^ f.length * 10 ^ k :=
            (Nat.mul_lt_mul_right (pow_pos (by norm_num) k)).mpr hflt
        _ = 10 ^ d := by rw [← pow_add]; congr 1; omega
    refine ⟨w * 10 ^ d + fval * 10 ^ k, ?_, ?_⟩
    · rw [parseTokenAmount_append_dot _ f d hwd hf, hwval,
        padEndTake_of_le f d hlen, digitsToNat_append,
        digitsToNat_replicate_zero, List.length_replicate, Nat.add_zero]
    · have hmodD : (w * 10 ^ d + fval * 10 ^ k) % 10 ^ d = fval * 10 ^ k := by
        rw [Nat.add_comm, Nat.add_mul_mod_self_right, Nat.mod_eq_of_lt hrlt]
      have hdivD : (w * 10 ^ d + fval * 10 ^ k) / 10 ^ d = w := by
        rw [Nat.mul_comm w (10 ^ d), Nat.mul_add_div hDpos,
          Nat.div_eq_of_lt hrlt, Nat.add_zero]
      rw [formatTokenAmount_of_le22 _ d hd22,
        if_neg (by rw [hmodD]; exact hrne), hmodD, hdivD]
      refine congrArg some ?_
      -- it remains to see the rendered fractional remainder is `f`
      obtain ⟨hlenC, hdecomp⟩ := digit_decomposition f hf hfne0
      rw [natToDec_mul_pow fval k hfne0]
      unfold padStartZeros
      rw [List.length_append, List.length_replicate, ← List.append_assoc,
        stripTrailingZeros_append_zeros]
      have hj : d - ((natToDec fval).length + k)
          = f.length - (natToDec (digitsToNat f)).length := by
        rw [← hfval]
        omega
      rw [hj, stripTrailingZeros_of_getLast?, ← hfval, ← hdecomp]
      rw [List.getLast?_append, ← hfval, natToDec_getLast? fval hfne0]
      intro hbad
      simp only [Option.or_some, Option.some.injEq] at hbad
      have : fval % 10 = 0 :=
        (decChar_eq_zero_iff (Nat.mod_lt fval (by norm_num))).mp hbad
      exact hmodne this

/-- C2 witness at `d = 6`, `w = 0`, `f = "1"`: the round trip fixes `"0.1"`. -/
theorem c2_roundTrip_canonical_witness :
    (6 : Nat) ≤ 22 ∧
    (("1").toList).all isDigitChar = true ∧
    (("1").toList) ≠ [] ∧
    (("1").toList).length ≤ 6 ∧
    (("1").toList).getLast? ≠ some '0' ∧
    (∃ v : ℕ, parseTokenAmount (natToDec 0 ++ '.' :: ("1").toList) 6 = .ok ((v : ℤ)) ∧
      formatTokenAmount v 6 = some (natToDec 0 ++ '.' :: ("1").toList)) :=
  ⟨by norm_num, rfl, by decide, by norm_num, by decide,
   (c2_roundTrip_canonical 6 0 (("1").toList) (by norm_num) rfl (by decide)
      (by norm_num) (by decide)).2⟩

/-! ## The million-threshold normalization heuristic (C3) -/

theorem ARBITRUM_TOKENS_lookup_decimals (k : List Char) (info : TokenInfo)
    (h : ARBITRUM_TOKENS.lookup k = some info) :
    info.decimals = 6 ∨ info.decimals = 18 := by
  simp only [ARBITRUM_TOKENS, List.lookup] at h
  repeat' split at h
  all_goals try (cases h; decide)
  exact absurd h (by simp)

/-- Every token the table or its default can yield has 6 or 18 decimals. -/
theorem getTokenInfo_decimals (s : List Char) :
    (getTokenInfo s).decimals = 6 ∨ (getTokenInfo s).decimals = 18 := by
  simp only [getTokenInfo]
  cases hl : ARBITRUM_TOKENS.lookup (jsToUpper s) with
  | none => right; rfl
  | some info => exact ARBITRUM_TOKENS_lookup_decimals _ info hl

theorem decimalValueQ_eq_some {s : List Char} {q : ℚ} (h : decimalValueQ s = some q) :
    (wholePartOf s).all isDigitChar = true ∧
    (fracPartOf s).all isDigitChar = true ∧
    wholePartOf s ++ fracPartOf s ≠ [] ∧
    (s = wholePartOf s ∨ s = wholePartOf s ++ '.' :: fracPartOf s) ∧
    q = (digitsToNat (wholePartOf s) : ℚ)
        + (digitsToNat (fracPartOf s) : ℚ) / (10 : ℚ) ^ (fracPartOf s).length := by
  simp only [decimalValueQ] at h
  split_ifs at h with hc
  obtain ⟨h1, h2, h3, h4⟩ := hc
  cases h
  exact ⟨h1, h2, h3, h4, rfl⟩

/-- The `parseFloat(amount) > 1000000` test is true exactly when the exact
decimal value exceeds `1000000 + 2 ^ (-34)`, the midpoint between 1,000,000
and the next binary64 number (the tie rounds to the even side, 1,000,000
itself). -/
theorem jsGtMillion_iff {s : List Char} {q : ℚ} (h : decimalValueQ s = some q) :
    jsGtMillion s = true ↔ 1000000 + 1 / 2 ^ 34 < q := by
  obtain ⟨h1, h2, h3, h4, hq⟩ := decimalValueQ_eq_some h
  have hguard : ((wholePartOf s).all isDigitChar &&
      ((fracPartOf s).all isDigitChar && (decide (wholePartOf s ++ fracPartOf s ≠ []) &&
        (decide (s = wholePartOf s) || decide (s = wholePartOf s ++ '.' :: fracPartOf s)))))
      = true := by
    have hd3 : decide (wholePartOf s ++ fracPartOf s ≠ []) = true := decide_eq_true h3
    have hd4 : (decide (s = wholePartOf s)
        || decide (s = wholePartOf s ++ '.' :: fracPartOf s)) = true := by
      rcases h4 with h4 | h4
      · rw [decide_eq_true h4, Bool.true_or]
      · rw [decide_eq_true h4, Bool.or_true]
    rw [h1, h2, hd3, hd4]
    rfl
  have hLpos : (0 : ℚ) < (10 : ℚ) ^ (fracPartOf s).length := by positivity
  have hqfrac : q = ((digitsToNat (wholePartOf s) * 10 ^ (fracPartOf s).length
      + digitsToNat (fracPartOf s) : ℕ) : ℚ) / (10 : ℚ) ^ (fracPartOf s).length := by
    rw [hq]
    push_cast
    field_simp
  have hth : (1000000 + 1 / 2 ^ 34 : ℚ)
      = ((1000000 * 2 ^ 34 + 1 : ℕ) : ℚ) / ((2 ^ 34 : ℕ) : ℚ) := by
    rw [eq_div_iff (by positivity : ((2 ^ 34 : ℕ) : ℚ) ≠ 0)]
    push_cast
    field_simp
    norm_num
  have hkey : (1000000 + 1 / 2 ^ 34 : ℚ) < q ↔
      (1000000 * 2 ^ 34 + 1) * 10 ^ (fracPartOf s).length <
        2 ^ 34 * (digitsToNat (wholePartOf s) * 10 ^ (fracPartOf s).length
          + digitsToNat (fracPartOf s)) := by
    rw [hqfrac, hth, div_lt_div_iff₀ (by positivity) hLpos,
      Nat.mul_comm (2 ^ 34)
        (digitsToNat (wholePartOf s) * 10 ^ (fracPartOf s).length
          + digitsToNat (fracPartOf s))]
    constructor
    · intro hlt
      exact_mod_cast hlt
    · intro hlt
      exact_mod_cast hlt
  simp only [jsGtMillion, Bool.and_assoc, hguard, Bool.true_and,
    decide_eq_true_eq]
  exact hkey.symm

/-- C3 counterexample: the amount `"1000000.0000000000000000001"` has exact
numeric value `1000000 + 10 ^ (-19)`, strictly above 1,000,000 — so the
claim demands conversion — but `parseFloat` rounds it to exactly 1,000,000
(the excess is far below the half-ulp `2 ^ (-34)`), the `> 1000000` test is
false, and the source returns the amount unchanged. -/
theorem c3_counterexample :
    decimalValueQ sampleEpsilonData.amount = some (((10 ^ 25 + 1 : ℚ)) / 10 ^ 19) ∧
    (1000000 : ℚ) < ((10 ^ 25 + 1 : ℚ)) / 10 ^ 19 ∧
    (formatTransactionData sampleEpsilonData).amount = sampleEpsilonData.amount := by
  refine ⟨?_, by norm_num, by decide⟩
  simp only [decimalValueQ]
  rw [if_pos ⟨by decide, by decide, by decide, Or.inr (by decide)⟩,
    show digitsToNat (wholePartOf (sampleEpsilonData.amount)) = 1000000 from rfl,
    show digitsToNat (fracPartOf (sampleEpsilonData.amount)) = 1 from rfl,
    show (fracPartOf (sampleEpsilonData.amount)).length = 19 from rfl]
  congr 1
  rw [eq_div_iff (by positivity : ((10 : ℚ) ^ 19) ≠ 0)]
  push_cast
  field_simp
  norm_num

/-- C3 (corrected): `normalizeTransactionAmount` (the source's
`formatTransactionData`) converts the amount down via `toDisplayUnits` with
the token's decimals exactly when the binary64 value `parseFloat` assigns to
the amount exceeds 1,000,000 — for the plain decimal amounts of the data
model, exactly when the exact value exceeds `1000000 + 2 ^ (-34)` — and
returns the amount unchanged otherwise.  (`c3_counterexample` shows the
original exact-value threshold is wrong within half an ulp of 1,000,000.) -/
theorem c3_normalize_threshold (data : TransactionData) (q : ℚ)
    (h : decimalValueQ data.amount = some q) :
    (1000000 + 1 / 2 ^ 34 < q →
      ∃ out, formatTokenAmount (digitsToNat (wholePartOf data.amount))
          (getTokenInfo data.tokenName).decimals = some out ∧
        (formatTransactionData data).amount = out) ∧
    (q ≤ 1000000 + 1 / 2 ^ 34 →
      (formatTransactionData data).amount = data.amount) := by
  constructor
  · intro hgt
    have hd : (getTokenInfo data.tokenName).decimals ≤ 22 := by
      rcases getTokenInfo_decimals data.tokenName with h6 | h18 <;> omega
    obtain ⟨out, hout⟩ := formatTokenAmount_isSome_of_le22
      (digitsToNat (wholePartOf data.amount)) (getTokenInfo data.tokenName).decimals hd
    refine ⟨out, hout, ?_⟩
    simp only [formatTransactionData]
    rw [if_pos ((jsGtMillion_iff h).mpr hgt), hout]
    rfl
  · intro hle
    simp only [formatTransactionData]
    rw [if_neg (fun hb => absurd ((jsGtMillion_iff h).mp hb) (not_lt.mpr hle))]

/-- C3 witness: the amount `"2000000"` of `sampleBaseUnitsData` exceeds the
threshold and is converted down (USDC has 6 decimals, so it displays as
`"2"`). -/
theorem c3_normalize_threshold_witness :
    decimalValueQ sampleBaseUnitsData.amount = some (2000000 : ℚ) ∧
    (1000000 + 1 / 2 ^ 34 : ℚ) < 2000000 ∧
    ∃ out, formatTokenAmount (digitsToNat (wholePartOf sampleBaseUnitsData.amount))
        (getTokenInfo sampleBaseUnitsData.tokenName).decimals = some out ∧
      (formatTransactionData sampleBaseUnitsData).amount = out := by
  have hpf : decimalValueQ sampleBaseUnitsData.amount = some (2000000 : ℚ) := by
    simp only [decimalValueQ]
    rw [if_pos ⟨by decide, by decide, by decide, Or.inl (by decide)⟩]
    norm_num [show digitsToNat (wholePartOf (sampleBaseUnitsData.amount)) = 2000000 from rfl,
      show digitsToNat (fracPartOf (sampleBaseUnitsData.amount)) = 0 from rfl,
      show (fracPartOf (sampleBaseUnitsData.amount)).length = 0 from rfl]
  exact ⟨hpf, by norm_num,
    (c3_normalize_threshold sampleBaseUnitsData 2000000 hpf).1 (by norm_num)⟩

/-! ## Claim theorems for the `ChatTab` executor -/

/-- C8 (confirmed): an instruction issued with a connected wallet on the
wrong network produces exactly one `switchNetwork` request, issued before
anything else, and never a `submit` call; when the switch request is
rejected the failure message is surfaced, no agent request is made (the
instruction is not executed), the state is unchanged and no retry occurs. -/
theorem c8_wrong_network_guard (s : ChatState) (chainId : Nat) (switchOk : Bool)
    (outcome : AgentOutcome) (hc : chainId ≠ arbitrumChainId) :
    ∃ rest,
      (handleEvent s (.instructionSubmit true true chainId switchOk outcome)).2
        = Effect.msgSwitching :: Effect.switchNetworkCall arbitrumChainId :: rest ∧
      (∀ t, Effect.switchNetworkCall t ∉ rest) ∧
      (∀ i st, Effect.submitCall i st ∉
        (handleEvent s (.instructionSubmit true true chainId switchOk outcome)).2) ∧
      (switchOk = false →
        rest = [Effect.msgSwitchFailed] ∧
        Effect.agentRequestCall ∉
          (handleEvent s (.instructionSubmit true true chainId switchOk outcome)).2 ∧
        (handleEvent s (.instructionSubmit true true chainId switchOk outcome)).1 = s) := by
  cases switchOk with
  | false =>
      refine ⟨[Effect.msgSwitchFailed], ?_, ?_, ?_, ?_⟩ <;>
        simp [handleEvent, handleInstruction, hc]
  | true =>
      cases outcome with
      | requestFailed =>
          refine ⟨[Effect.msgSwitchOk, Effect.msgUserEcho, Effect.agentRequestCall,
            Effect.msgApiFailed], ?_, ?_, ?_, ?_⟩ <;>
            simp [handleEvent, handleInstruction, hc]
      | planArtifact d =>
          refine ⟨[Effect.msgSwitchOk, Effect.msgUserEcho, Effect.agentRequestCall,
            Effect.msgAssistant, Effect.msgSummary], ?_, ?_, ?_, ?_⟩ <;>
            simp [handleEvent, handleInstruction, hc]
      | positionsArtifact =>
          refine ⟨[Effect.msgSwitchOk, Effect.msgUserEcho, Effect.agentRequestCall,
            Effect.msgAssistant, Effect.msgPositions], ?_, ?_, ?_, ?_⟩ <;>
            simp [handleEvent, handleInstruction, hc]
      | plainText =>
          refine ⟨[Effect.msgSwitchOk, Effect.msgUserEcho, Effect.agentRequestCall,
            Effect.msgAssistant], ?_, ?_, ?_, ?_⟩ <;>
            simp [handleEvent, handleInstruction, hc]
      | notCompleted =>
          refine ⟨[Effect.msgSwitchOk, Effect.msgUserEcho, Effect.agentRequestCall,
            Effect.msgCantProcess], ?_, ?_, ?_, ?_⟩ <;>
            simp [handleEvent, handleInstruction, hc]

/-- C8 witness at `chainId = 1`, a rejected switch, and an arbitrary agent
outcome: the effect log is exactly the switch attempt and its failure. -/
theorem c8_wrong_network_guard_witness :
    (1 : Nat) ≠ arbitrumChainId ∧
    ∃ rest,
      (handleEvent initialChatState
        (.instructionSubmit true true 1 false .plainText)).2
        = Effect.msgSwitching :: Effect.switchNetworkCall arbitrumChainId :: rest ∧
      (∀ t, Effect.switchNetworkCall t ∉ rest) ∧
      (∀ i st, Effect.submitCall i st ∉
        (handleEvent initialChatState
          (.instructionSubmit true true 1 false .plainText)).2) ∧
      (false = false →
        rest = [Effect.msgSwitchFailed] ∧
        Effect.agentRequestCall ∉
          (handleEvent initialChatState
            (.instructionSubmit true true 1 false .plainText)).2 ∧
        (handleEvent initialChatState
          (.instructionSubmit true true 1 false .plainText)).1 = initialChatState) :=
  ⟨by decide,
   c8_wrong_network_guard initialChatState 1 false .plainText (by decide)⟩

/-- C1 (code bug): in `raceTrace` the user approves again right after step
0's submission succeeds — which the code permits, since `onSuccess` advances
`currentTxIndex` on submission success and nothing disables the approve
button while the confirmation watcher is still pending — so step 1 is
submitted although no confirmation event for step 0 was ever recorded. -/
theorem c1_step1_submitted_before_step0_confirmed :
    Effect.submitCall 0 sampleStep0 ∈ (runEvents initialChatState raceTrace).2 ∧
    Effect.submitCall 1 sampleStep1 ∈ (runEvents initialChatState raceTrace).2 ∧
    Effect.msgConfirmed ∉ (runEvents initialChatState raceTrace).2 := by
  refine ⟨?_, ?_, ?_⟩ <;> decide

/-- C7 (code bug): in `prematureResetTrace` the execution state is reset to
none after step 0's confirmation of a two-step plan — with no rejection, no
submission failure, and the final step (step 1) never submitted — because
`onSuccess` already advanced `currentTxIndex`, so the confirmation effect's
`currentTxIndex + 1 < txPlan.length` test wrongly reports the plan
complete. -/
theorem c7_reset_without_completion :
    (runEvents initialChatState prematureResetTrace).1 = initialChatState ∧
    Effect.msgConfirmed ∈ (runEvents initialChatState prematureResetTrace).2 ∧
    (∀ st, Effect.submitCall 1 st ∉ (runEvents initialChatState prematureResetTrace).2) ∧
    Effect.msgCancelled ∉ (runEvents initialChatState prematureResetTrace).2 ∧
    Effect.msgTxFailed ∉ (runEvents initialChatState prematureResetTrace).2 := by
  have heval : runEvents initialChatState prematureResetTrace
      = (initialChatState,
         [Effect.msgUserEcho, Effect.agentRequestCall, Effect.msgAssistant,
          Effect.msgSummary, Effect.msgSending 0, Effect.submitCall 0 sampleStep0,
          Effect.msgSent 0, Effect.msgConfirmed]) := by decide
  rw [heval]
  refine ⟨rfl, by decide, ?_, by decide, by decide⟩
  intro st
  simp

/-- C9 (confirmed): the summary is a pure function of the transaction data,
rendering `{Capitalize(action)} {normalizedAmount} {tokenSymbol}`; in
particular a supply of 0.1 USDC renders as `"Supply 0.1 USDC"`.
Determinism is immediate: the summary is a mathematical function of its
argument. -/
theorem c9_summary_format :
    (∀ data : TransactionData,
      createTransactionSummary data
        = capitalizeFirst (formatTransactionData data).action ++ ' ' ::
            (formatTransactionData data).amount ++ ' ' ::
            (getTokenInfo data.tokenName).symbol) ∧
    createTransactionSummary sampleSupplyData = ("Supply 0.1 USDC").toList :=
  ⟨fun _ => rfl, rfl⟩

/-! ## Token lookup (C10) -/

theorem toNat_ofNat_of_lt {n : Nat} (h : n < 55296) : (Char.ofNat n).toNat = n := by
  have hv : Char.isValidCharNat n := Or.inl h
  rw [Char.ofNat, dif_pos hv]
  simp [Char.toNat, Char.ofNatAux, UInt32.toNat, UInt32.ofNat']

theorem jsToUpperChar_idem (c : Char) :
    jsToUpperChar (jsToUpperChar c) = jsToUpperChar c := by
  unfold jsToUpperChar
  by_cases h : 97 ≤ c.toNat ∧ c.toNat ≤ 122
  · rw [if_pos h]
    have ht : (Char.ofNat (c.toNat - 32)).toNat = c.toNat - 32 :=
      toNat_ofNat_of_lt (by omega)
    rw [if_neg (by rw [ht]; omega)]
  · rw [if_neg h, if_neg h]

theorem jsToUpper_idem (s : List Char) : jsToUpper (jsToUpper s) = jsToUpper s := by
  unfold jsToUpper
  rw [List.map_map]
  exact List.map_congr_left (fun a _ => jsToUpperChar_idem a)

theorem ARBITRUM_TOKENS_lookup_symbol (k : List Char) (info : TokenInfo)
    (h : ARBITRUM_TOKENS.lookup k = some info) : info.symbol = k := by
  simp only [ARBITRUM_TOKENS, List.lookup] at h
  repeat' split at h
  all_goals rename_i heq
  all_goals try (cases h; rw [eq_of_beq heq])
  exact absurd h (by simp)

/-- C10 (confirmed): token lookup is case-insensitive and
symbol-normalizing: `getTokenInfo` agrees on a symbol and its upper-cased
form, the returned `symbol` field is always the upper-cased input, a hit
returns the canonical table entry, and a miss returns the upper-cased
symbol with 18 decimals — so the summary always renders the upper-case
symbol even for a lower-case `tokenName`. -/
theorem c10_token_lookup_case_insensitive (s : List Char) :
    getTokenInfo s = getTokenInfo (jsToUpper s) ∧
    (getTokenInfo s).symbol = jsToUpper s ∧
    (∀ info, ARBITRUM_TOKENS.lookup (jsToUpper s) = some info →
      getTokenInfo s = info) ∧
    (ARBITRUM_TOKENS.lookup (jsToUpper s) = none →
      getTokenInfo s = ⟨jsToUpper s, 18, none⟩) := by
  refine ⟨?_, ?_, ?_, ?_⟩
  · simp only [getTokenInfo]
    rw [jsToUpper_idem]
  · simp only [getTokenInfo]
    cases hl : ARBITRUM_TOKENS.lookup (jsToUpper s) with
    | none => rfl
    | some info => exact ARBITRUM_TOKENS_lookup_symbol _ info hl
  · intro info hl
    simp only [getTokenInfo]
    rw [hl]
  · intro hl
    simp only [getTokenInfo]
    rw [hl]

/-- C10 witness at `"usdc"`: the lower-case symbol resolves to the canonical
USDC table entry. -/
theorem c10_token_lookup_case_insensitive_witness :
    ARBITRUM_TOKENS.lookup (jsToUpper (("usdc").toList))
      = some ⟨("USDC").toList, 6,
          some (("0xaf88d065e77c8cC2239327C5EDb3A432268e5831").toList)⟩ ∧
    getTokenInfo (("usdc").toList)
      = ⟨("USDC").toList, 6,
          some (("0xaf88d065e77c8cC2239327C5EDb3A432268e5831").toList)⟩ :=
  ⟨by decide,
   (c10_token_lookup_case_insensitive (("usdc").toList)).2.2.1 _ (by decide)⟩

example : parseTokenAmount ("0.1".toList) 6 = .ok 100000 := rfl
example : parseTokenAmount ("123".toList) 2 = .ok 12300 := rfl
example : parseTokenAmount ("12.3456789".toList) 6 = .ok 12345678 := rfl
example : parseTokenAmount ("1a.2".toList) 6 = .error .InvalidAmount := rfl
example : parseTokenAmount (".5".toList) 6 = .ok 500000 := rfl
example : formatTokenAmount 100000 6 = some ("0.1".toList) := rfl
example : formatTokenAmount 2000000 6 = some ("2".toList) := rfl
example : formatTokenAmount 1230 3 = some ("1.23".toList) := rfl
example : jsStringToBigInt ("+42".toList) = some 42 := rfl
example : jsStringToBigInt (" 12".toList) = some 12 := rfl
example : jsStringToBigInt ([] : List Char) = some 0 := rfl
example : jsStringToBigInt ("-7".toList) = some (-7) := rfl
example : jsStringToBigInt ("0x1f".toList) = some 31 := rfl
example : jsStringToBigInt ("1a".toList) = none := rfl
example : jsPow10Double 23 = some 99999999999999991611392 := rfl
example : (getTokenInfo ("usdc".toList)).decimals = 6 := rfl
example : (getTokenInfo ("usdc".toList)).symbol = ("USDC".toList) := rfl
example : (getTokenInfo ("FOO".toList)).decimals = 18 := rfl
example : jsGtMillion ("0.1".toList) = false := rfl
example : jsGtMillion ("2000000".toList) = true := rfl
example :
    createTransactionSummary ⟨("USDC").toList, ("0.1").toList, ("supply").toList,
      ("42161").toList, []⟩ = ("Supply 0.1 USDC").toList := rfl

end LendingAgent
